import Mathlib

/-! Shallow embedding of the quiz backend core: the callback guard
(app/guard.py, class CallbackShield) and the session repository
(app/repo.py, class Repo).  Python dicts are modelled as association
lists in insertion order; wall-clock instants (time.monotonic floats)
as rationals; JSON timestamps (_now_iso strings) as opaque strings
passed in by the caller. -/

/-- Association list lookup, mirroring Python dict access d.get(k). -/
def lookupA {κ α : Type} [DecidableEq κ] (k : κ) : List (κ × α) → Option α
  | [] => none
  | p :: rest => if p.1 = k then some p.2 else lookupA k rest

/-- Association list assignment, mirroring Python d[k] = v: the first
binding for k is updated in place, otherwise the pair is appended
(dict insertion order preserved). -/
def insertA {κ α : Type} [DecidableEq κ] (k : κ) (v : α) : List (κ × α) → List (κ × α)
  | [] => [(k, v)]
  | p :: rest => if p.1 = k then (k, v) :: rest else p :: insertA k v rest

/-- Association list deletion, mirroring Python d.pop(k, None). -/
def eraseA {κ α : Type} [DecidableEq κ] (k : κ) (l : List (κ × α)) : List (κ × α) :=
  l.filter (fun p => decide (p.1 ≠ k))

theorem lookupA_insertA_self {κ α : Type} [DecidableEq κ] (k : κ) (v : α)
    (l : List (κ × α)) : lookupA k (insertA k v l) = some v := by
  induction l with
  | nil => simp [insertA, lookupA]
  | cons p rest ih =>
    by_cases h : p.1 = k
    · simp [insertA, h, lookupA]
    · simp [insertA, h, lookupA, ih]

theorem lookupA_insertA_ne {κ α : Type} [DecidableEq κ] {k k2 : κ} (v : α)
    (l : List (κ × α)) (h : k2 ≠ k) :
    lookupA k (insertA k2 v l) = lookupA k l := by
  induction l with
  | nil => simp [insertA, lookupA, h]
  | cons p rest ih =>
    by_cases hp : p.1 = k2
    · simp [insertA, hp, lookupA, h, (h <| hp ▸ ·)]
    · simp only [insertA, if_neg hp, lookupA]
      by_cases hk : p.1 = k
      · simp [hk]
      · simp [hk, ih]

theorem lookupA_eraseA_self {κ α : Type} [DecidableEq κ] (k : κ)
    (l : List (κ × α)) : lookupA k (eraseA k l) = none := by
  induction l with
  | nil => simp [eraseA, lookupA]
  | cons p rest ih =>
    by_cases h : p.1 = k
    · simpa [eraseA, h] using ih
    · simpa [eraseA, h, lookupA] using ih

theorem insertA_insertA_self {κ α : Type} [DecidableEq κ] (k : κ) (v w : α)
    (l : List (κ × α)) : insertA k v (insertA k w l) = insertA k v l := by
  induction l with
  | nil => simp [insertA]
  | cons p rest ih =>
    by_cases h : p.1 = k
    · simp [insertA, h]
    · simp [insertA, h, ih]

/-! ## app/guard.py — CallbackShield -/

/-- Callback identity key: (from_user.id, chat_id, message_id, data). -/
abbrev GKey := Int × Int × Int × String

/-- State of CallbackShield: the two constructor parameters and the two
internal maps (key → last-seen time, user_id → acquisition time). -/
structure CallbackShield where
  dedup_ttl : Rat
  in_flight_timeout : Rat
  last : List (GKey × Rat)
  inflight : List (Int × Rat)

/-- The shield as constructed with the default parameters
dedup_ttl = 0.8, in_flight_timeout = 2.0. -/
def shield0 : CallbackShield := ⟨4/5, 2, [], []⟩

/-- CallbackShield.is_duplicate: reads the last-seen time for the key,
unconditionally refreshes it to now, and reports true iff a previous
timestamp existed with now - ts < dedup_ttl. -/
def CallbackShield.is_duplicate (g : CallbackShield) (k : GKey) (now : Rat) :
    Bool × CallbackShield :=
  let ts := lookupA k g.last
  (match ts with
   | none => false
   | some t => decide (now - t < g.dedup_ttl),
   { g with last := insertA k now g.last })

/-- CallbackShield.try_acquire: refuses while an unexpired slot exists
(now - ts < in_flight_timeout); otherwise stores now and succeeds. -/
def CallbackShield.try_acquire (g : CallbackShield) (uid : Int) (now : Rat) :
    Bool × CallbackShield :=
  match lookupA uid g.inflight with
  | some ts =>
    if now - ts < g.in_flight_timeout then (false, g)
    else (true, { g with inflight := insertA uid now g.inflight })
  | none => (true, { g with inflight := insertA uid now g.inflight })

/-- CallbackShield.release: drops the user's in-flight slot
unconditionally (dict pop with default). -/
def CallbackShield.release (g : CallbackShield) (uid : Int) : CallbackShield :=
  { g with inflight := eraseA uid g.inflight }

/-- C3: is_duplicate unconditionally refreshes the key's last-seen time to
now and returns true iff a previous timestamp existed less than dedup_ttl
ago; hence on a fresh key two calls within the window return false then
true, and a third call more than dedup_ttl after the second returns false
again (sliding debounce window). -/
theorem C3_is_duplicate_spec (g : CallbackShield) (k : GKey) (now t1 t2 t3 : Rat)
    (hfresh : lookupA k g.last = none)
    (hquick : t2 - t1 < g.dedup_ttl)
    (hwait : t3 - t2 > g.dedup_ttl) :
    lookupA k (g.is_duplicate k now).2.last = some now
    ∧ ((g.is_duplicate k now).1 = true ↔
        ∃ prev, lookupA k g.last = some prev ∧ now - prev < g.dedup_ttl)
    ∧ (g.is_duplicate k t1).1 = false
    ∧ ((g.is_duplicate k t1).2.is_duplicate k t2).1 = true
    ∧ (((g.is_duplicate k t1).2.is_duplicate k t2).2.is_duplicate k t3).1 = false := by
  refine ⟨?_, ?_, ?_, ?_, ?_⟩
  · simp [CallbackShield.is_duplicate, lookupA_insertA_self]
  · cases h : lookupA k g.last with
    | none => simp [CallbackShield.is_duplicate, h]
    | some t => simp [CallbackShield.is_duplicate, h]
  · simp [CallbackShield.is_duplicate, hfresh]
  · simp [CallbackShield.is_duplicate, hfresh, lookupA_insertA_self, hquick]
  · simp [CallbackShield.is_duplicate, hfresh, lookupA_insertA_self,
      insertA_insertA_self]
    linarith

/-- C3 witness: default shield, one key, calls at times 0, 1/2, 3/2. -/
theorem C3_is_duplicate_spec_witness :
    lookupA ((1 : Int), (1 : Int), (1 : Int), "x") shield0.last = none
    ∧ (1 : Rat)/2 - 0 < shield0.dedup_ttl
    ∧ (3 : Rat)/2 - 1/2 > shield0.dedup_ttl
    ∧ (((shield0.is_duplicate (1, 1, 1, "x") 0).2.is_duplicate
        (1, 1, 1, "x") (1/2)).2.is_duplicate (1, 1, 1, "x") (3/2)).1 = false :=
  ⟨rfl, by norm_num [shield0], by norm_num [shield0],
    (C3_is_duplicate_spec shield0 (1, 1, 1, "x") 0 0 (1/2) (3/2) rfl
      (by norm_num [shield0]) (by norm_num [shield0])).2.2.2.2⟩

/-- C4: try_acquire fails iff an unexpired in-flight entry exists, and
otherwise records now as the acquisition time and succeeds; release removes
the entry unconditionally; hence on a free user the pattern
acquire / immediate re-acquire / re-acquire after release / re-acquire
after the timeout elapses yields true, false, true, true. -/
theorem C4_try_acquire_spec (g : CallbackShield) (uid : Int) (now t1 t2 t3 : Rat)
    (hfree : lookupA uid g.inflight = none)
    (hquick : t2 - t1 < g.in_flight_timeout)
    (hlate : t3 - t1 ≥ g.in_flight_timeout) :
    ((g.try_acquire uid now).1 = false ↔
      ∃ ts, lookupA uid g.inflight = some ts ∧ now - ts < g.in_flight_timeout)
    ∧ ((g.try_acquire uid now).1 = true →
        lookupA uid (g.try_acquire uid now).2.inflight = some now)
    ∧ lookupA uid (g.release uid).inflight = none
    ∧ (g.try_acquire uid t1).1 = true
    ∧ ((g.try_acquire uid t1).2.try_acquire uid t2).1 = false
    ∧ (((g.try_acquire uid t1).2.release uid).try_acquire uid t2).1 = true
    ∧ ((g.try_acquire uid t1).2.try_acquire uid t3).1 = true := by
  have h1 : g.try_acquire uid t1 =
      (true, { g with inflight := insertA uid t1 g.inflight }) := by
    simp [CallbackShield.try_acquire, hfree]
  refine ⟨?_, ?_, ?_, ?_, ?_, ?_, ?_⟩
  · cases h : lookupA uid g.inflight with
    | none => simp [CallbackShield.try_acquire, h]
    | some ts =>
      by_cases hc : now - ts < g.in_flight_timeout
      · simp [CallbackShield.try_acquire, h, hc]
      · simp [CallbackShield.try_acquire, h, hc]
  · cases h : lookupA uid g.inflight with
    | none =>
      intro _
      simp [CallbackShield.try_acquire, h, lookupA_insertA_self]
    | some ts =>
      by_cases hc : now - ts < g.in_flight_timeout
      · simp [CallbackShield.try_acquire, h, hc]
      · intro _
        simp [CallbackShield.try_acquire, h, hc, lookupA_insertA_self]
  · simp [CallbackShield.release, lookupA_eraseA_self]
  · simp [h1]
  · rw [h1]
    simp only [CallbackShield.try_acquire, lookupA_insertA_self]
    rw [if_pos hquick]
  · rw [h1]
    simp [CallbackShield.release, CallbackShield.try_acquire, lookupA_eraseA_self]
  · rw [h1]
    simp only [CallbackShield.try_acquire, lookupA_insertA_self]
    rw [if_neg (not_lt.mpr (by linarith))]

/-- C4 witness: default shield, user 7, times 0, 1, 2. -/
theorem C4_try_acquire_spec_witness :
    lookupA (7 : Int) shield0.inflight = none
    ∧ (1 : Rat) - 0 < shield0.in_flight_timeout
    ∧ (2 : Rat) - 0 ≥ shield0.in_flight_timeout
    ∧ (shield0.try_acquire 7 0).1 = true
    ∧ ((shield0.try_acquire 7 0).2.try_acquire 7 1).1 = false
    ∧ ((shield0.try_acquire 7 0).2.try_acquire 7 2).1 = true :=
  ⟨rfl, by norm_num [shield0], by norm_num [shield0],
    (C4_try_acquire_spec shield0 7 0 0 1 2 rfl (by norm_num [shield0])
      (by norm_num [shield0])).2.2.2.1,
    (C4_try_acquire_spec shield0 7 0 0 1 2 rfl (by norm_num [shield0])
      (by norm_num [shield0])).2.2.2.2.1,
    (C4_try_acquire_spec shield0 7 0 0 1 2 rfl (by norm_num [shield0])
      (by norm_num [shield0])).2.2.2.2.2.2⟩

/-! ## app/repo.py — data model

Dicts are association lists; the JSON payload fields that no operation
inspects (title, statement, correct_answer, solution_explanation, options)
are carried as inert strings/lists. -/

structure Question where
  id : String
  title : String
  topic_ids : List String
  difficulty : String
  answer_format : String
  statement : String
  correct_answer : String
  solution_explanation : String
  options : List String
  deriving DecidableEq

/-- Shorthand for question literals: only id, topic_ids and difficulty
are ever read by the Repo operations. -/
def mkQ (id : String) (topic_ids : List String) (difficulty : String) : Question :=
  ⟨id, "", topic_ids, difficulty, "single_choice", "", "", "", []⟩

structure UserPrefs where
  qcount : Nat
  diff : String
  sol : String
  deriving DecidableEq

structure AwaitInput where
  qid : String
  format : String
  deriving DecidableEq

structure AnswerRec where
  format : String
  value : String
  is_correct : Bool
  deriving DecidableEq

structure Session where
  mode : String
  topic_id : Option String
  question_ids : List String
  index : Int
  answers : List (String × AnswerRec)
  await_input : Option AwaitInput
  solutions_qids : List String
  deriving DecidableEq

structure StatsBucket where
  answered : Nat
  correct : Nat
  deriving DecidableEq

structure Stats where
  total : StatsBucket
  by_topic : List (String × StatsBucket)
  deriving DecidableEq

structure UserRow where
  username : Option String
  created_at : String
  updated_at : String
  prefs : UserPrefs
  session : Option Session
  last_topic_id : Option String
  stats : Stats
  deriving DecidableEq

/-- The persisted users document: version, updated_at, users mapping. -/
structure UsersDoc where
  version : String
  updated_at : String
  users : List (String × UserRow)
  deriving DecidableEq

/-- Repo state after load_bank: the question list (the topic/id indices
are recomputed from it by qById/qByTopic below, exactly as load_bank
builds them once), the in-memory users document, and the users file on
disk (none until the first save). _now_iso timestamps are supplied by
the caller of each operation. -/
structure Repo where
  questions : List Question
  doc_version : String
  doc_updated_at : String
  users : List (String × UserRow)
  disk : Option UsersDoc
  deriving DecidableEq

/-- load_bank index q_by_id: dict comprehension over the question list,
later duplicates overwriting earlier ones. -/
def qById (qs : List Question) : List (String × Question) :=
  qs.foldl (fun m q => insertA q.id q m) []

/-- One step of the q_by_topic construction:
self.q_by_topic.setdefault(t, []).append(q). -/
def appendTopic (t : String) (q : Question) (m : List (String × List Question)) :
    List (String × List Question) :=
  match lookupA t m with
  | some l => insertA t (l ++ [q]) m
  | none => m ++ [(t, [q])]

/-- load_bank index q_by_topic: for each question, for each of its
topic_ids, append it to that topic's bucket. -/
def qByTopic (qs : List Question) : List (String × List Question) :=
  qs.foldl (fun m q => q.topic_ids.foldl (fun m2 t => appendTopic t q m2) m) []

/-- Default preferences for a new user row. -/
def DEFAULT_PREFS : UserPrefs := ⟨5, "m", "imm"⟩

/-- The row built by ensure_user on first contact. -/
def defaultRow (username : Option String) (now : String) : UserRow :=
  { username := username, created_at := now, updated_at := now,
    prefs := DEFAULT_PREFS, session := none, last_topic_id := none,
    stats := ⟨⟨0, 0⟩, []⟩ }

/-- Repo.save_users: stamp the document and atomically write the whole
document to the users file. -/
def Repo.save_users (r : Repo) (now : String) : Repo :=
  { r with doc_updated_at := now, disk := some ⟨r.doc_version, now, r.users⟩ }

/-- Repo.ensure_user: get-or-create the row keyed by str(user_id);
persists immediately on creation only. -/
def Repo.ensure_user (r : Repo) (uid : Int) (username : Option String)
    (now : String) : UserRow × Repo :=
  let key := toString uid
  match lookupA key r.users with
  | some u => (u, r)
  | none =>
    let u := defaultRow username now
    (u, Repo.save_users { r with users := insertA key u r.users } now)

/-- The state component of ensure_user (operations call it first). -/
def ensureR (r : Repo) (uid : Int) (now : String) : Repo :=
  (r.ensure_user uid none now).2

/-- The keyword arguments accepted by update_prefs at its call sites. -/
structure PrefChanges where
  qcount : Option Nat
  diff : Option String
  sol : Option String
  deriving DecidableEq

/-- Python dict.update of the prefs mapping with the given changes. -/
def applyPrefs (p : UserPrefs) (c : PrefChanges) : UserPrefs :=
  ⟨c.qcount.getD p.qcount, c.diff.getD p.diff, c.sol.getD p.sol⟩

/-- Repo.update_prefs: ensure the user, merge changes into prefs, stamp,
persist. -/
def Repo.update_prefs (r : Repo) (uid : Int) (c : PrefChanges) (now : String) :
    Repo :=
  let r1 := ensureR r uid now
  let key := toString uid
  match lookupA key r1.users with
  | none => r1
  | some u =>
    Repo.save_users
      { r1 with
        users := insertA key
          { u with
            prefs := applyPrefs u.prefs c,
            updated_at := now }
          r1.users } now

/-- The filtered candidate pool of pick_series.  Python truthiness of
topic_id: None and the empty string both fall to the all-questions
branch. -/
def poolFor (r : Repo) (topic_id : Option String) (diff : String) :
    List Question :=
  match topic_id with
  | some t =>
    if t = "" then r.questions.filter (fun q => decide (q.difficulty = diff))
    else ((lookupA t (qByTopic r.questions)).getD []).filter
      (fun q => decide (q.difficulty = diff))
  | none => r.questions.filter (fun q => decide (q.difficulty = diff))

/-- random.sample pool count, made deterministic by the list of chosen
positions; a run of the Python code corresponds to some duplicate-free
in-bounds choice of length count. -/
def sampleBy (pool : List Question) (choice : List Nat) : List Question :=
  choice.filterMap (fun i => pool.get? i)

/-- Repo.pick_series: empty when the pool is smaller than count, else a
sample of count distinct positions of the pool. -/
def Repo.pick_series (r : Repo) (topic_id : Option String) (diff : String)
    (count : Nat) (choice : List Nat) : List Question :=
  let pool := poolFor r topic_id diff
  if pool.length < count then [] else sampleBy pool choice

/-- Repo.start_session: ensure the user, pick the series; on an empty pick
return empty leaving everything as is, else install a fresh session and
record last_topic_id. -/
def Repo.start_session (r : Repo) (uid : Int) (mode : String)
    (topic_id : Option String) (diff : String) (count : Nat)
    (choice : List Nat) (now : String) : List Question × Repo :=
  let r1 := ensureR r uid now
  let series := r1.pick_series topic_id diff count choice
  if series.isEmpty then ([], r1)
  else
    let key := toString uid
    match lookupA key r1.users with
    | none => (series, r1)
    | some u =>
      let s : Session :=
        ⟨mode, topic_id, series.map (fun q => q.id), 0, [], none, []⟩
      (series,
        Repo.save_users
          { r1 with
            users := insertA key
              { u with
                session := some s,
                last_topic_id := topic_id,
                updated_at := now }
              r1.users } now)

/-- Repo.get_current_question: the question at the cursor when a session
exists and the cursor is in range, else none; mutates only through
ensure_user. -/
def Repo.get_current_question (r : Repo) (uid : Int) (now : String) :
    Option Question × Repo :=
  let r1 := ensureR r uid now
  match lookupA (toString uid) r1.users with
  | none => (none, r1)
  | some u =>
    match u.session with
    | none => (none, r1)
    | some s =>
      if 0 ≤ s.index ∧ s.index < (s.question_ids.length : Int) then
        (match s.question_ids.get? s.index.toNat with
         | some qid => lookupA qid (qById r1.questions)
         | none => none, r1)
      else (none, r1)

/-- Topic attribution inside record_answer: the topic_hint when not None,
else q_by_id.get(qid, dict()).get("topic_ids", [None])[0], which is the
first topic id of the question and collapses to none for an unknown
question id. -/
def resolveTopic (r : Repo) (qid : String) (hint : Option String) :
    Option String :=
  match hint with
  | some t => some t
  | none => (lookupA qid (qById r.questions)).bind (fun q => q.topic_ids.head?)

/-- Repo.record_answer: no-op without a session; else store the record
under qid, bump the total counters, and bump the attributed topic bucket
when the resolved topic is truthy (non-None, non-empty). -/
def Repo.record_answer (r : Repo) (uid : Int) (qid : String) (rec : AnswerRec)
    (hint : Option String) (now : String) : Repo :=
  let r1 := ensureR r uid now
  let key := toString uid
  match lookupA key r1.users with
  | none => r1
  | some u =>
    match u.session with
    | none => r1
    | some s =>
      let s2 := { s with answers := insertA qid rec s.answers }
      let inc : Nat := if rec.is_correct then 1 else 0
      let total2 : StatsBucket :=
        ⟨u.stats.total.answered + 1, u.stats.total.correct + inc⟩
      let byt2 :=
        match resolveTopic r1 qid hint with
        | some t =>
          if t = "" then u.stats.by_topic
          else
            let b := (lookupA t u.stats.by_topic).getD ⟨0, 0⟩
            insertA t ⟨b.answered + 1, b.correct + inc⟩ u.stats.by_topic
        | none => u.stats.by_topic
      Repo.save_users
        { r1 with
          users := insertA key
            { u with
              session := some s2,
              stats := ⟨total2, byt2⟩,
              updated_at := now }
            r1.users } now

/-- Repo.advance: no-op (False) without a session; else increment the
cursor unconditionally and report whether it is still inside the series. -/
def Repo.advance (r : Repo) (uid : Int) (now : String) : Bool × Repo :=
  let r1 := ensureR r uid now
  let key := toString uid
  match lookupA key r1.users with
  | none => (false, r1)
  | some u =>
    match u.session with
    | none => (false, r1)
    | some s =>
      let s2 := { s with index := s.index + 1 }
      let more := decide (s2.index < (s2.question_ids.length : Int))
      (more,
        Repo.save_users
          { r1 with
            users := insertA key
              { u with
                session := some s2,
                updated_at := now }
              r1.users } now)

/-- Repo.finish: drop the session and persist. -/
def Repo.finish (r : Repo) (uid : Int) (now : String) : Repo :=
  let r1 := ensureR r uid now
  let key := toString uid
  match lookupA key r1.users with
  | none => r1
  | some u =>
    Repo.save_users
      { r1 with
        users := insertA key
          { u with
            session := none,
            updated_at := now }
          r1.users } now

/-- Repo.set_await_input: no-op without a session; else set await_input
to the given qid/format and persist. -/
def Repo.set_await_input (r : Repo) (uid : Int) (qid : String) (fmt : String)
    (now : String) : Repo :=
  let r1 := ensureR r uid now
  let key := toString uid
  match lookupA key r1.users with
  | none => r1
  | some u =>
    match u.session with
    | none => r1
    | some s =>
      Repo.save_users
        { r1 with
          users := insertA key
            { u with
              session := some ({ s with await_input := some ⟨qid, fmt⟩ }),
              updated_at := now }
            r1.users } now

/-- Repo.clear_await_input: no-op without a session; else clear
await_input and persist. -/
def Repo.clear_await_input (r : Repo) (uid : Int) (now : String) : Repo :=
  let r1 := ensureR r uid now
  let key := toString uid
  match lookupA key r1.users with
  | none => r1
  | some u =>
    match u.session with
    | none => r1
    | some s =>
      Repo.save_users
        { r1 with
          users := insertA key
            { u with
              session := some ({ s with await_input := none }),
              updated_at := now }
            r1.users } now

/-- Outcome of opening and json-parsing the users file. -/
inductive UsersFile
  | missing
  | unreadable
  | parsedNonDict
  | parsedNoUsersKey
  | parsedDoc (d : UsersDoc)
  deriving DecidableEq

/-- Repo.load_users: a missing file installs an empty default document and
persists it at once; unreadable content, a non-dict value, or a dict
without a users key reset the in-memory document to the empty default
(without writing); a dict with a users mapping is adopted as is. -/
def Repo.load_users (r : Repo) (file : UsersFile) (now : String) : Repo :=
  match file with
  | .missing =>
    Repo.save_users
      { r with doc_version := "users.v1", doc_updated_at := now, users := [] }
      now
  | .unreadable =>
    { r with doc_version := "users.v1", doc_updated_at := now, users := [] }
  | .parsedNonDict =>
    { r with doc_version := "users.v1", doc_updated_at := now, users := [] }
  | .parsedNoUsersKey =>
    { r with doc_version := "users.v1", doc_updated_at := now, users := [] }
  | .parsedDoc d =>
    { r with
      doc_version := d.version,
      doc_updated_at := d.updated_at,
      users := d.users }

/-- Repo.__init__ followed by load_bank on the given questions: empty
users document, nothing persisted yet. -/
def initRepo (qs : List Question) (now : String) : Repo :=
  { questions := qs, doc_version := "users.v1", doc_updated_at := now,
    users := [], disk := none }

/-- The public SessionStore operations, each tagged with the _now_iso
timestamp observed during the call (and, for start_session, with the
positions random.sample chose). -/
inductive Op
  | opEnsure (uid : Int) (username : Option String) (now : String)
  | opUpdatePrefs (uid : Int) (c : PrefChanges) (now : String)
  | opStart (uid : Int) (mode : String) (topic_id : Option String)
      (diff : String) (count : Nat) (choice : List Nat) (now : String)
  | opGetCurrent (uid : Int) (now : String)
  | opRecord (uid : Int) (qid : String) (rec : AnswerRec)
      (hint : Option String) (now : String)
  | opAdvance (uid : Int) (now : String)
  | opFinish (uid : Int) (now : String)
  | opSetAwait (uid : Int) (qid : String) (fmt : String) (now : String)
  | opClearAwait (uid : Int) (now : String)

/-- State effect of one public operation. -/
def applyOp (r : Repo) : Op → Repo
  | .opEnsure uid un now => (r.ensure_user uid un now).2
  | .opUpdatePrefs uid c now => r.update_prefs uid c now
  | .opStart uid mode t d c ch now => (r.start_session uid mode t d c ch now).2
  | .opGetCurrent uid now => (r.get_current_question uid now).2
  | .opRecord uid qid rec hint now => r.record_answer uid qid rec hint now
  | .opAdvance uid now => (r.advance uid now).2
  | .opFinish uid now => r.finish uid now
  | .opSetAwait uid qid fmt now => r.set_await_input uid qid fmt now
  | .opClearAwait uid now => r.clear_await_input uid now

/-! ## Basic facts about ensure_user and save_users -/

theorem save_users_users (r : Repo) (now : String) :
    (Repo.save_users r now).users = r.users := rfl

theorem ensureR_of_mem {r : Repo} {uid : Int} {now : String} {u : UserRow}
    (h : lookupA (toString uid) r.users = some u) :
    ensureR r uid now = r := by
  simp [ensureR, Repo.ensure_user, h]

theorem ensureR_users_of_absent {r : Repo} {uid : Int} {now : String}
    (h : lookupA (toString uid) r.users = none) :
    (ensureR r uid now).users =
      insertA (toString uid) (defaultRow none now) r.users := by
  simp [ensureR, Repo.ensure_user, h, Repo.save_users]

theorem ensureR_lookup (r : Repo) (uid : Int) (now : String) :
    lookupA (toString uid) (ensureR r uid now).users =
      some ((lookupA (toString uid) r.users).getD (defaultRow none now)) := by
  cases h : lookupA (toString uid) r.users with
  | some u => rw [ensureR_of_mem h, h]; rfl
  | none => rw [ensureR_users_of_absent h, lookupA_insertA_self]; rfl

theorem ensureR_questions (r : Repo) (uid : Int) (now : String) :
    (ensureR r uid now).questions = r.questions := by
  cases h : lookupA (toString uid) r.users with
  | some u => rw [ensureR_of_mem h]
  | none => simp [ensureR, Repo.ensure_user, h, Repo.save_users]

/-- C9: loading the users store: a missing file installs the empty default
document (version users.v1, no users) and persists it immediately;
unreadable content, a non-dict value, or a dict lacking a users mapping
reset the in-memory store to the empty default instead of propagating a
parse failure; a well-formed document is adopted as is, so in all cases
the store ends in a well-formed document state. -/
theorem C9_load_users_recovery (r : Repo) (now : String) (d : UsersDoc) :
    ((r.load_users .missing now).users = []
      ∧ (r.load_users .missing now).doc_version = "users.v1"
      ∧ (r.load_users .missing now).disk = some ⟨"users.v1", now, []⟩)
    ∧ ((r.load_users .unreadable now).users = []
      ∧ (r.load_users .unreadable now).doc_version = "users.v1"
      ∧ (r.load_users .unreadable now).disk = r.disk)
    ∧ ((r.load_users .parsedNonDict now).users = []
      ∧ (r.load_users .parsedNonDict now).doc_version = "users.v1")
    ∧ ((r.load_users .parsedNoUsersKey now).users = []
      ∧ (r.load_users .parsedNoUsersKey now).doc_version = "users.v1")
    ∧ ((r.load_users (.parsedDoc d) now).users = d.users
      ∧ (r.load_users (.parsedDoc d) now).doc_version = d.version) :=
  ⟨⟨rfl, rfl, rfl⟩, ⟨rfl, rfl, rfl⟩, ⟨rfl, rfl⟩, ⟨rfl, rfl⟩, ⟨rfl, rfl⟩⟩

/-- C5: for a user already present, a start_session whose selection comes
back empty returns the empty list and leaves the whole repository, hence
in particular the user's session, last_topic_id, prefs and stats, exactly
as before; a non-empty selection installs a fresh session (index 0, no
answers, no await_input) and updates last_topic_id, while prefs and stats
survive unchanged. -/
theorem C5_start_session_frame (r : Repo) (uid : Int) (mode : String)
    (topic_id : Option String) (diff : String) (count : Nat)
    (choice : List Nat) (now : String) (u : UserRow)
    (hu : lookupA (toString uid) r.users = some u) :
    (r.pick_series topic_id diff count choice = [] →
      (r.start_session uid mode topic_id diff count choice now).1 = []
      ∧ (r.start_session uid mode topic_id diff count choice now).2 = r)
    ∧ (∀ qs, r.pick_series topic_id diff count choice = qs → qs ≠ [] →
        ∃ u2, lookupA (toString uid)
            (r.start_session uid mode topic_id diff count choice now).2.users
              = some u2
          ∧ u2.session =
              some ⟨mode, topic_id, qs.map (fun q => q.id), 0, [], none, []⟩
          ∧ u2.last_topic_id = topic_id
          ∧ u2.prefs = u.prefs
          ∧ u2.stats = u.stats) := by
  have hr1 : ensureR r uid now = r := ensureR_of_mem hu
  constructor
  · intro hempty
    constructor <;> simp [Repo.start_session, hr1, hempty]
  · intro qs hqs hne
    refine ⟨{ u with
        session := some ⟨mode, topic_id, qs.map (fun q => q.id), 0, [], none, []⟩,
        last_topic_id := topic_id,
        updated_at := now }, ?_, rfl, rfl, rfl, rfl⟩
    simp [Repo.start_session, hr1, hqs, hne, hu, Repo.save_users,
      lookupA_insertA_self]

/-- A one-user repository over an empty question bank, for witnesses. -/
def rowW : UserRow := defaultRow none "t0"

/-- Witness repository: user "1" present, no questions, nothing on disk. -/
def repoW5 : Repo :=
  { questions := [], doc_version := "users.v1", doc_updated_at := "t0",
    users := [("1", rowW)], disk := none }

/-- C5 witness: on repoW5 the pool is empty, so a count-1 start_session
returns empty and leaves the repository untouched. -/
theorem C5_start_session_frame_witness :
    lookupA (toString (1 : Int)) repoW5.users = some rowW
    ∧ repoW5.pick_series none "m" 1 [] = []
    ∧ (repoW5.start_session 1 "series" none "m" 1 [] "t1").2 = repoW5 :=
  ⟨rfl, rfl,
    ((C5_start_session_frame repoW5 1 "series" none "m" 1 [] "t1" rowW rfl).1
      rfl).2⟩

/-! ## pick_series: pool structure and sampling -/

theorem lookupA_append {κ α : Type} [DecidableEq κ] (k : κ)
    (l1 l2 : List (κ × α)) :
    lookupA k (l1 ++ l2) =
      match lookupA k l1 with
      | some v => some v
      | none => lookupA k l2 := by
  induction l1 with
  | nil => simp [lookupA]
  | cons p rest ih =>
    by_cases h : p.1 = k
    · simp [lookupA, h]
    · simp [lookupA, h, ih]

/-- The bucket a topic currently holds in the q_by_topic index under
construction (empty when the topic is absent). -/
def topicBucket (m : List (String × List Question)) (t : String) :
    List Question := (lookupA t m).getD []

theorem topicBucket_appendTopic (t2 : String) (q : Question)
    (m : List (String × List Question)) (t : String) :
    topicBucket (appendTopic t2 q m) t =
      if t2 = t then topicBucket m t ++ [q] else topicBucket m t := by
  unfold topicBucket appendTopic
  cases hl : lookupA t2 m with
  | some l =>
    by_cases ht : t2 = t
    · subst ht
      rw [lookupA_insertA_self, hl, if_pos rfl]
      rfl
    · rw [lookupA_insertA_ne _ _ ht, if_neg ht]
  | none =>
    by_cases ht : t2 = t
    · subst ht
      rw [lookupA_append, hl, if_pos rfl]
      simp [lookupA]
    · rw [lookupA_append, if_neg ht]
      cases hv : lookupA t m with
      | some v => rfl
      | none => simp [lookupA, ht]

theorem topicBucket_foldTopics (q : Question) (ts : List String)
    (m : List (String × List Question)) (t : String) (h : ts.Nodup) :
    topicBucket (ts.foldl (fun m2 t2 => appendTopic t2 q m2) m) t
      = topicBucket m t ++ (if t ∈ ts then [q] else []) := by
  induction ts generalizing m with
  | nil => simp
  | cons t2 rest ih =>
    have h2 := List.nodup_cons.mp h
    rw [List.foldl_cons, ih _ h2.2, topicBucket_appendTopic]
    by_cases ht : t2 = t
    · subst ht
      have hnr : t2 ∉ rest := h2.1
      simp [hnr]
    · have hts : (t ∈ t2 :: rest) ↔ (t ∈ rest) := by
        constructor
        · intro hx
          rcases List.mem_cons.mp hx with he | hx2
          · exact absurd he.symm ht
          · exact hx2
        · exact fun hx => List.mem_cons_of_mem t2 hx
      rw [if_neg ht]
      by_cases hmem : t ∈ rest
      · rw [if_pos hmem, if_pos (hts.mpr hmem)]
      · rw [if_neg hmem, if_neg (fun hx => hmem (hts.mp hx))]

theorem topicBucket_qByTopic_aux (qs : List Question)
    (h : ∀ q ∈ qs, q.topic_ids.Nodup) :
    ∀ (m : List (String × List Question)) (acc : List Question),
      (∀ t, List.Sublist (topicBucket m t) acc) →
      ∀ t, List.Sublist
        (topicBucket
          (qs.foldl
            (fun m3 q => q.topic_ids.foldl (fun m2 t2 => appendTopic t2 q m2) m3)
            m) t)
        (acc ++ qs) := by
  induction qs with
  | nil => intro m acc hm t; simpa using hm t
  | cons q rest ih =>
    intro m acc hm t
    rw [List.foldl_cons]
    have hq : q.topic_ids.Nodup := h q (List.mem_cons_self q rest)
    have hrest : ∀ q2 ∈ rest, q2.topic_ids.Nodup :=
      fun q2 hq2 => h q2 (List.mem_cons_of_mem q hq2)
    have hm2 : ∀ t2, List.Sublist
        (topicBucket (q.topic_ids.foldl (fun m2 t3 => appendTopic t3 q m2) m) t2)
        (acc ++ [q]) := by
      intro t2
      rw [topicBucket_foldTopics q _ _ _ hq]
      by_cases hmem : t2 ∈ q.topic_ids
      · rw [if_pos hmem]
        exact List.Sublist.append (hm t2) (List.Sublist.refl [q])
      · rw [if_neg hmem]
        simpa using (hm t2).trans (List.sublist_append_left acc [q])
    have h3 := ih hrest _ (acc ++ [q]) hm2 t
    simpa [List.append_assoc] using h3

theorem topicBucket_qByTopic_sublist (qs : List Question)
    (h : ∀ q ∈ qs, q.topic_ids.Nodup) (t : String) :
    List.Sublist (topicBucket (qByTopic qs) t) qs := by
  have h2 := topicBucket_qByTopic_aux qs h [] []
    (fun t2 => by simp [topicBucket, lookupA]) t
  simpa [qByTopic] using h2

/-- Well-formed question bank: globally distinct question ids and, per
question, duplicate-free topic_ids (the integrity the spec's data model
declares for a loaded bank). -/
def bankWF (qs : List Question) : Prop :=
  (qs.map (fun q => q.id)).Nodup ∧ ∀ q ∈ qs, q.topic_ids.Nodup

theorem poolFor_sublist (r : Repo) (topic_id : Option String) (diff : String)
    (h : ∀ q ∈ r.questions, q.topic_ids.Nodup) :
    List.Sublist (poolFor r topic_id diff) r.questions := by
  cases topic_id with
  | none => exact List.filter_sublist r.questions
  | some t =>
    show List.Sublist
      (if t = "" then r.questions.filter (fun q => decide (q.difficulty = diff))
       else ((lookupA t (qByTopic r.questions)).getD []).filter
         (fun q => decide (q.difficulty = diff))) r.questions
    by_cases ht : t = ""
    · rw [if_pos ht]; exact List.filter_sublist r.questions
    · rw [if_neg ht]
      exact (List.filter_sublist _).trans
        (topicBucket_qByTopic_sublist r.questions h t)

theorem poolFor_ids_nodup (r : Repo) (topic_id : Option String) (diff : String)
    (hwf : bankWF r.questions) :
    ((poolFor r topic_id diff).map (fun q => q.id)).Nodup :=
  List.Nodup.sublist
    (List.Sublist.map _ (poolFor_sublist r topic_id diff hwf.2)) hwf.1

theorem filterMap_getq_length {α : Type} (L : List α) (idxs : List Nat)
    (hb : ∀ i ∈ idxs, i < L.length) :
    (idxs.filterMap (fun i => L.get? i)).length = idxs.length := by
  induction idxs with
  | nil => rfl
  | cons i rest ih =>
    have hi : i < L.length := hb i (List.mem_cons_self i rest)
    rw [List.filterMap_cons, List.get?_eq_get hi]
    simp only [List.length_cons]
    rw [ih (fun j hj => hb j (List.mem_cons_of_mem i hj))]

theorem filterMap_getq_nodup {α : Type} (L : List α) (idxs : List Nat)
    (hL : L.Nodup) (hi : idxs.Nodup) (hb : ∀ i ∈ idxs, i < L.length) :
    (idxs.filterMap (fun i => L.get? i)).Nodup := by
  induction idxs with
  | nil => simp
  | cons i rest ih =>
    have hlt : i < L.length := hb i (List.mem_cons_self i rest)
    have hrest : ∀ j ∈ rest, j < L.length :=
      fun j hj => hb j (List.mem_cons_of_mem i hj)
    have h2 := List.nodup_cons.mp hi
    rw [List.filterMap_cons, List.get?_eq_get hlt]
    refine List.nodup_cons.mpr ⟨?_, ih h2.2 hrest⟩
    intro hmem
    obtain ⟨j, hjmem, hj⟩ := List.mem_filterMap.mp hmem
    have hjlt : j < L.length := hrest j hjmem
    rw [List.get?_eq_get hjlt] at hj
    have hfin : (⟨j, hjlt⟩ : Fin L.length) = ⟨i, hlt⟩ :=
      (List.Nodup.get_inj_iff hL).mp (by injection hj)
    have : j = i := congrArg Fin.val hfin
    exact h2.1 (this ▸ hjmem)

theorem sampleBy_map_id (pool : List Question) (choice : List Nat) :
    (sampleBy pool choice).map (fun q => q.id)
      = choice.filterMap (fun i => (pool.map (fun q => q.id)).get? i) := by
  unfold sampleBy
  rw [List.map_filterMap]
  simp [List.get?_map]

/-- A repository with a one-question medium bank, for counterexamples. -/
def repoW2 : Repo :=
  { questions := [mkQ "q1" ["alg"] "m"], doc_version := "users.v1",
    doc_updated_at := "t0", users := [], disk := none }

/-- A bank whose single question repeats its topic: load_bank's only
validation (every referenced topic exists) accepts it, yet the alg bucket
of q_by_topic then holds the question twice. -/
def repoDup : Repo :=
  { questions := [mkQ "q1" ["alg", "alg"] "m"], doc_version := "users.v1",
    doc_updated_at := "t0", users := [], disk := none }

/-- The `bad` list computed by load_bank's reference validation: the ids of
questions whose topic_ids mention an unknown topic; loading aborts iff it
is non-empty. -/
def loadBankBad (topicIds : List String) (qs : List Question) : List String :=
  (qs.filter (fun q => q.topic_ids.any (fun t => !(topicIds.contains t)))).map
    (fun q => q.id)

/-- C2 counterexample, two independent failures of the claim as stated.
With count = 0 and a non-empty pool, pick_series returns the empty
sequence although the pool does not have fewer than count elements.
And on repoDup -- which load_bank accepts, its validation finding no bad
reference -- the alg/medium pool holds the same question at two positions,
so pick_series returns a length-2 = count sequence whose question ids are
q1, q1: duplicate ids despite sampling without replacement. -/
theorem C2_pick_series_cex :
    (repoW2.pick_series none "m" 0 [] = []
      ∧ (poolFor repoW2 none "m").length = 1
      ∧ ¬ ((poolFor repoW2 none "m").length < 0))
    ∧ (loadBankBad ["alg"] repoDup.questions = []
      ∧ (repoDup.pick_series (some "alg") "m" 2 [0, 1]).map (fun q => q.id)
          = ["q1", "q1"]
      ∧ (repoDup.pick_series (some "alg") "m" 2 [0, 1]).length = 2
      ∧ ¬ ((repoDup.pick_series (some "alg") "m" 2 [0, 1]).map
            (fun q => q.id)).Nodup) :=
  ⟨⟨rfl, rfl, by decide⟩, ⟨rfl, rfl, rfl, by decide⟩⟩

/-- C2 amended: for every topic_id, difficulty and count, and any
positions random.sample can pick, the result length is exactly count or
exactly 0; the result has no duplicate question ids whenever the filtered
pool's ids are distinct (a question repeating a topic in its topic_ids
passes load_bank, fills two slots of that topic's pool, and can then be
returned twice); for count ≥ 1 the result is empty exactly when the
filtered pool has fewer than count elements, while count = 0 yields the
empty sequence even from a sufficient pool. -/
theorem C2_pick_series_amended (r : Repo) (topic_id : Option String)
    (diff : String) (count : Nat) (choice : List Nat)
    (hchoice : ¬ (poolFor r topic_id diff).length < count →
      choice.length = count ∧ choice.Nodup ∧
        ∀ i ∈ choice, i < (poolFor r topic_id diff).length) :
    ((r.pick_series topic_id diff count choice).length = count
      ∨ r.pick_series topic_id diff count choice = [])
    ∧ (((poolFor r topic_id diff).map (fun q => q.id)).Nodup →
        ((r.pick_series topic_id diff count choice).map
          (fun q => q.id)).Nodup)
    ∧ (1 ≤ count →
        (r.pick_series topic_id diff count choice = []
          ↔ (poolFor r topic_id diff).length < count)) := by
  by_cases hlt : (poolFor r topic_id diff).length < count
  · have he : r.pick_series topic_id diff count choice = [] := by
      simp [Repo.pick_series, hlt]
    rw [he]
    exact ⟨Or.inr rfl, fun _ => by simp, fun _ => ⟨fun _ => hlt, fun _ => rfl⟩⟩
  · obtain ⟨hl, hnd, hb⟩ := hchoice hlt
    have he : r.pick_series topic_id diff count choice
        = sampleBy (poolFor r topic_id diff) choice := by
      simp [Repo.pick_series, hlt]
    have hlen : (sampleBy (poolFor r topic_id diff) choice).length = count :=
      (filterMap_getq_length (poolFor r topic_id diff) choice hb).trans hl
    refine ⟨Or.inl (he ▸ hlen), ?_, ?_⟩
    · intro hpool
      rw [he, sampleBy_map_id]
      exact filterMap_getq_nodup _ _ hpool hnd (by simpa using hb)
    · intro hc
      rw [he]
      constructor
      · intro hnil
        rw [hnil] at hlen
        simp only [List.length_nil] at hlen
        omega
      · intro hcon
        exact absurd hcon hlt

/-- C2 amended witness: the one-question bank with distinct pool ids,
count 1, choice [0]: pick_series returns exactly that question, with no
duplicate ids. -/
theorem C2_pick_series_amended_witness :
    ((¬ (poolFor repoW2 none "m").length < 1) →
        ([0] : List Nat).length = 1 ∧ ([0] : List Nat).Nodup ∧
          ∀ i ∈ ([0] : List Nat), i < (poolFor repoW2 none "m").length)
    ∧ ((poolFor repoW2 none "m").map (fun q => q.id)).Nodup
    ∧ ((repoW2.pick_series none "m" 1 [0]).length = 1
        ∨ repoW2.pick_series none "m" 1 [0] = [])
    ∧ ((repoW2.pick_series none "m" 1 [0]).map (fun q => q.id)).Nodup := by
  have hch : ¬ (poolFor repoW2 none "m").length < 1 →
      ([0] : List Nat).length = 1 ∧ ([0] : List Nat).Nodup ∧
        ∀ i ∈ ([0] : List Nat), i < (poolFor repoW2 none "m").length := by
    intro _
    refine ⟨rfl, by simp, ?_⟩
    intro i hi
    rcases List.mem_singleton.mp hi with rfl
    decide
  have hpool : ((poolFor repoW2 none "m").map (fun q => q.id)).Nodup := by
    decide
  have h := C2_pick_series_amended repoW2 none "m" 1 [0] hch
  exact ⟨hch, hpool, h.1, h.2.1 hpool⟩

/-! ## Store-wide invariants over the users map -/

/-- Every row reachable in the map satisfies P. -/
def usersOK (P : UserRow → Prop) (l : List (String × UserRow)) : Prop :=
  ∀ k u, lookupA k l = some u → P u

theorem usersOK_insert {P : UserRow → Prop} {l : List (String × UserRow)}
    {key : String} {u2 : UserRow} (h : usersOK P l) (h2 : P u2) :
    usersOK P (insertA key u2 l) := by
  intro k u hk
  by_cases hkey : key = k
  · subst hkey
    rw [lookupA_insertA_self] at hk
    cases hk
    exact h2
  · rw [lookupA_insertA_ne _ _ hkey] at hk
    exact h k u hk

theorem ensure2_of_mem {r : Repo} {uid : Int} {un : Option String}
    {now : String} {u : UserRow} (h : lookupA (toString uid) r.users = some u) :
    (r.ensure_user uid un now).2 = r := by
  simp [Repo.ensure_user, h]

theorem ensure2_users_of_absent {r : Repo} {uid : Int} {un : Option String}
    {now : String} (h : lookupA (toString uid) r.users = none) :
    (r.ensure_user uid un now).2.users =
      insertA (toString uid) (defaultRow un now) r.users := by
  simp [Repo.ensure_user, h, Repo.save_users]

theorem usersOK_ensure2 {P : UserRow → Prop} {r : Repo} {uid : Int}
    {un : Option String} {now : String}
    (hd : P (defaultRow un now)) (h : usersOK P r.users) :
    usersOK P (r.ensure_user uid un now).2.users := by
  cases hm : lookupA (toString uid) r.users with
  | some u => rw [ensure2_of_mem hm]; exact h
  | none => rw [ensure2_users_of_absent hm]; exact usersOK_insert h hd

/-- The session-cursor bound of an optional session. -/
def sessOK : Option Session → Prop
  | none => True
  | some s => 0 ≤ s.index ∧ s.index ≤ (s.question_ids.length : Int)

/-- The session-cursor bound of one row. -/
def rowIndexOK (u : UserRow) : Prop := sessOK u.session

/-- The session-cursor bound across the whole store. -/
def storeIndexOK (r : Repo) : Prop := usersOK rowIndexOK r.users

theorem rowIndexOK_default (un : Option String) (now : String) :
    rowIndexOK (defaultRow un now) := by
  simp [rowIndexOK, defaultRow, sessOK]

/-- The call discipline under which advance keeps the cursor bound: it is
only invoked while the cursor is strictly inside the series. -/
def advGuard (r : Repo) : Op → Prop
  | .opAdvance uid _ =>
    ∀ u s, lookupA (toString uid) r.users = some u → u.session = some s →
      s.index < (s.question_ids.length : Int)
  | _ => True

/-- The state reached from the one-question bank by start_session and two
advance calls. -/
def repoC1 : Repo :=
  applyOp (applyOp (applyOp repoW2 (.opStart 1 "series" none "m" 1 [0] "t1"))
    (.opAdvance 1 "t2")) (.opAdvance 1 "t3")

/-- C1 counterexample: advance increments the cursor unconditionally, so a
second advance after the cursor reached len(question_ids) pushes it to
2 > 1 in a reachable state: the claimed invariant fails. -/
theorem C1_advance_counterexample :
    (∃ u s, lookupA "1" repoC1.users = some u ∧ u.session = some s
      ∧ s.index = 2 ∧ s.question_ids.length = 1)
    ∧ ¬ storeIndexOK repoC1 := by
  have hx : ∃ u s, lookupA "1" repoC1.users = some u ∧ u.session = some s
      ∧ s.index = 2 ∧ s.question_ids.length = 1 :=
    ⟨_, _, rfl, rfl, rfl, rfl⟩
  refine ⟨hx, ?_⟩
  obtain ⟨u, s, hu, hs, hi, hl⟩ := hx
  intro h
  have h2 := h "1" u hu
  rw [rowIndexOK, hs] at h2
  have h3 := h2.2
  rw [hi, hl] at h3
  norm_num at h3

theorem get_current_state (r : Repo) (uid : Int) (now : String) :
    (r.get_current_question uid now).2 = ensureR r uid now := by
  simp only [Repo.get_current_question]
  split
  · rfl
  · split
    · rfl
    · split
      · rfl
      · rfl

/-- C1 amended: 0 ≤ session.index ≤ len(session.question_ids) holds in the
initial store and is preserved by every public operation provided advance
is only invoked while the cursor is strictly inside the series; the code
increments the cursor unconditionally, so an advance at
index = len(question_ids) is the one transition that escapes the bound. -/
theorem C1_index_invariant (r : Repo) (op : Op) (qs2 : List Question)
    (now0 : String) :
    storeIndexOK (initRepo qs2 now0)
    ∧ (storeIndexOK r → advGuard r op → storeIndexOK (applyOp r op)) := by
  constructor
  · intro k u hk
    simp [initRepo, lookupA] at hk
  · intro h hg
    cases op with
    | opEnsure uid un now =>
      exact usersOK_ensure2 (rowIndexOK_default un now) h
    | opUpdatePrefs uid c now =>
      have h1 : usersOK rowIndexOK (ensureR r uid now).users :=
        usersOK_ensure2 (rowIndexOK_default none now) h
      simp only [applyOp, Repo.update_prefs, storeIndexOK]
      split
      · exact h1
      · rename_i u hu
        simp only [save_users_users]
        exact usersOK_insert h1 (h1 _ u hu)
    | opStart uid mode t d cnt ch now =>
      have h1 : usersOK rowIndexOK (ensureR r uid now).users :=
        usersOK_ensure2 (rowIndexOK_default none now) h
      simp only [applyOp, Repo.start_session, storeIndexOK]
      split
      · exact h1
      · split
        · exact h1
        · rename_i u hu
          simp only [save_users_users]
          exact usersOK_insert h1 ⟨le_refl 0, Int.natCast_nonneg _⟩
    | opGetCurrent uid now =>
      simp only [applyOp]
      rw [get_current_state]
      exact usersOK_ensure2 (rowIndexOK_default none now) h
    | opRecord uid qid rec hint now =>
      have h1 : usersOK rowIndexOK (ensureR r uid now).users :=
        usersOK_ensure2 (rowIndexOK_default none now) h
      simp only [applyOp, Repo.record_answer, storeIndexOK]
      split
      · exact h1
      · rename_i u hu
        split
        · exact h1
        · rename_i s hs
          simp only [save_users_users]
          refine usersOK_insert h1 ?_
          have hrow := h1 _ u hu
          simp only [rowIndexOK] at hrow
          rw [hs] at hrow
          simp only [sessOK] at hrow
          exact hrow
    | opAdvance uid now =>
      simp only [applyOp, Repo.advance, storeIndexOK]
      cases hm : lookupA (toString uid) r.users with
      | none =>
        have habs : (ensureR r uid now).users =
            insertA (toString uid) (defaultRow none now) r.users :=
          ensureR_users_of_absent hm
        have hu : lookupA (toString uid) (ensureR r uid now).users =
            some (defaultRow none now) := by
          rw [habs]; exact lookupA_insertA_self _ _ _
        have h1 : usersOK rowIndexOK (ensureR r uid now).users :=
          usersOK_ensure2 (rowIndexOK_default none now) h
        simp only [hu]
        simpa [defaultRow] using h1
      | some u =>
        have hr1 : ensureR r uid now = r := ensureR_of_mem hm
        simp only [hr1, hm]
        cases hs : u.session with
        | none => simpa [hs] using h
        | some s =>
          simp only [hs, save_users_users]
          refine usersOK_insert h ?_
          have hrow := h _ u hm
          simp only [rowIndexOK] at hrow
          rw [hs] at hrow
          simp only [sessOK] at hrow
          have hgs := hg u s hm hs
          show 0 ≤ s.index + 1 ∧ s.index + 1 ≤ (s.question_ids.length : Int)
          constructor
          · have h2 := hrow.1
            omega
          · have h2 := hgs
            omega
    | opFinish uid now =>
      have h1 : usersOK rowIndexOK (ensureR r uid now).users :=
        usersOK_ensure2 (rowIndexOK_default none now) h
      simp only [applyOp, Repo.finish, storeIndexOK]
      split
      · exact h1
      · simp only [save_users_users]
        exact usersOK_insert h1 True.intro
    | opSetAwait uid qid fmt now =>
      have h1 : usersOK rowIndexOK (ensureR r uid now).users :=
        usersOK_ensure2 (rowIndexOK_default none now) h
      simp only [applyOp, Repo.set_await_input, storeIndexOK]
      split
      · exact h1
      · rename_i u hu
        split
        · exact h1
        · rename_i s hs
          simp only [save_users_users]
          refine usersOK_insert h1 ?_
          have hrow := h1 _ u hu
          simp only [rowIndexOK] at hrow
          rw [hs] at hrow
          simp only [sessOK] at hrow
          exact hrow
    | opClearAwait uid now =>
      have h1 : usersOK rowIndexOK (ensureR r uid now).users :=
        usersOK_ensure2 (rowIndexOK_default none now) h
      simp only [applyOp, Repo.clear_await_input, storeIndexOK]
      split
      · exact h1
      · rename_i u hu
        split
        · exact h1
        · rename_i s hs
          simp only [save_users_users]
          refine usersOK_insert h1 ?_
          have hrow := h1 _ u hu
          simp only [rowIndexOK] at hrow
          rw [hs] at hrow
          simp only [sessOK] at hrow
          exact hrow

/-- C1 witness: the empty initial store satisfies the invariant, the guard
holds trivially for ensure_user, and the invariant persists across it. -/
theorem C1_index_invariant_witness :
    storeIndexOK (initRepo [] "t0")
    ∧ advGuard (initRepo [] "t0") (.opEnsure 1 none "t1")
    ∧ storeIndexOK (applyOp (initRepo [] "t0") (.opEnsure 1 none "t1")) :=
  ⟨(C1_index_invariant (initRepo [] "t0") (.opEnsure 1 none "t1") [] "t0").1,
    True.intro,
    (C1_index_invariant (initRepo [] "t0") (.opEnsure 1 none "t1") [] "t0").2
      (C1_index_invariant (initRepo [] "t0") (.opEnsure 1 none "t1") [] "t0").1
      True.intro⟩

/-! ## await_input and record_answer -/

/-- A two-question medium bank on topic alg. -/
def repoW8 : Repo :=
  { questions := [mkQ "q1" ["alg"] "m", mkQ "q2" ["alg"] "m"],
    doc_version := "users.v1", doc_updated_at := "t0", users := [],
    disk := none }

/-- repoW8 after user 1 starts the two-question series. -/
def repoC8a : Repo :=
  applyOp repoW8 (.opStart 1 "series" none "m" 2 [0, 1] "t1")

/-- User 1's row in repoC8a (ensure_user returns the stored row). -/
def rowC8 : UserRow := (repoC8a.ensure_user 1 none "t2").1

/-- User 1's active session in repoC8a. -/
def sessC8 : Session :=
  rowC8.session.getD ⟨"", none, [], 0, [], none, []⟩

/-- repoC8a after set_await_input for q1 and one advance. -/
def repoC8 : Repo :=
  applyOp (applyOp repoC8a (.opSetAwait 1 "q1" "text" "t2")) (.opAdvance 1 "t3")

/-- The claimed tie of await_input to the cursor question. -/
def awaitTied (r : Repo) : Prop :=
  ∀ k u s a, lookupA k r.users = some u → u.session = some s →
    s.await_input = some a → s.question_ids.get? s.index.toNat = some a.qid

/-- C8 counterexample: advance does not touch await_input, so after
set_await_input for the then-current q1 followed by advance, await_input
still references q1 while the cursor stands on q2. -/
theorem C8_await_counterexample :
    (∃ u s, lookupA "1" repoC8.users = some u ∧ u.session = some s
      ∧ s.await_input = some ⟨"q1", "text"⟩
      ∧ s.index = 1 ∧ s.question_ids = ["q1", "q2"])
    ∧ ¬ awaitTied repoC8 := by
  have hx : ∃ u s, lookupA "1" repoC8.users = some u ∧ u.session = some s
      ∧ s.await_input = some ⟨"q1", "text"⟩
      ∧ s.index = 1 ∧ s.question_ids = ["q1", "q2"] :=
    ⟨_, _, rfl, rfl, rfl, rfl, rfl⟩
  refine ⟨hx, ?_⟩
  obtain ⟨u, s, hu, hs, ha, hi, hq⟩ := hx
  intro h
  have h2 := h "1" u s ⟨"q1", "text"⟩ hu hs ha
  rw [hi, hq] at h2
  exact absurd h2 (by decide)

/-- C8 amended: set_await_input ties await_input to exactly the qid it is
passed (it is not checked against the cursor), and advance moves the
cursor while leaving await_input untouched; the flag therefore matches the
cursor question only under caller discipline, and advance itself can leave
it referencing the previous cursor's question id. -/
theorem C8_await_semantics (r : Repo) (uid : Int) (qid fmt now : String)
    (u : UserRow) (s : Session)
    (hu : lookupA (toString uid) (ensureR r uid now).users = some u)
    (hs : u.session = some s) :
    (∃ u2 s2,
      lookupA (toString uid) (r.set_await_input uid qid fmt now).users = some u2
      ∧ u2.session = some s2
      ∧ s2.await_input = some ⟨qid, fmt⟩
      ∧ s2.index = s.index ∧ s2.question_ids = s.question_ids)
    ∧ (∃ u3 s3,
      lookupA (toString uid) (r.advance uid now).2.users = some u3
      ∧ u3.session = some s3
      ∧ s3.await_input = s.await_input
      ∧ s3.index = s.index + 1 ∧ s3.question_ids = s.question_ids) := by
  constructor
  · refine ⟨{ u with
        session := some ({ s with await_input := some ⟨qid, fmt⟩ }),
        updated_at := now },
      { s with await_input := some ⟨qid, fmt⟩ }, ?_, rfl, rfl, rfl, rfl⟩
    simp only [Repo.set_await_input, hu, hs, save_users_users]
    exact lookupA_insertA_self _ _ _
  · refine ⟨{ u with
        session := some ({ s with index := s.index + 1 }),
        updated_at := now },
      { s with index := s.index + 1 }, ?_, rfl, rfl, rfl, rfl⟩
    simp only [Repo.advance, hu, hs, save_users_users]
    exact lookupA_insertA_self _ _ _

/-- C8 amended witness: on the started two-question series, set_await_input
ties the flag to q1 and advance leaves it untouched at cursor 1. -/
theorem C8_await_semantics_witness :
    lookupA (toString (1 : Int)) (ensureR repoC8a 1 "t2").users = some rowC8
    ∧ rowC8.session = some sessC8
    ∧ (∃ u2 s2,
        lookupA (toString (1 : Int))
          (repoC8a.set_await_input 1 "q1" "text" "t2").users = some u2
        ∧ u2.session = some s2
        ∧ s2.await_input = some ⟨"q1", "text"⟩
        ∧ s2.index = sessC8.index ∧ s2.question_ids = sessC8.question_ids) :=
  ⟨rfl, rfl,
    (C8_await_semantics repoC8a 1 "q1" "text" "t2" rowC8 sessC8 rfl rfl).1⟩

/-- C7: with an active session, record_answer stores the record under qid,
bumps total.answered by one and total.correct by one iff is_correct, and,
when the attributed topic (topic_hint if given, else the first entry of
the question's topic_ids) is truthy, bumps that topic's bucket likewise,
creating the bucket on first use; a non-truthy attribution leaves the
per-topic table unchanged. -/
theorem C7_record_answer_spec (r : Repo) (uid : Int) (qid : String)
    (rec : AnswerRec) (hint : Option String) (now : String)
    (u : UserRow) (s : Session)
    (hu : lookupA (toString uid) r.users = some u)
    (hs : u.session = some s) :
    ∃ u2 s2,
      lookupA (toString uid) (r.record_answer uid qid rec hint now).users
        = some u2
      ∧ u2.session = some s2
      ∧ lookupA qid s2.answers = some rec
      ∧ u2.stats.total.answered = u.stats.total.answered + 1
      ∧ u2.stats.total.correct =
          u.stats.total.correct + (if rec.is_correct then 1 else 0)
      ∧ (∀ t, resolveTopic r qid hint = some t → t ≠ "" →
          lookupA t u2.stats.by_topic =
            some ⟨((lookupA t u.stats.by_topic).getD ⟨0, 0⟩).answered + 1,
              ((lookupA t u.stats.by_topic).getD ⟨0, 0⟩).correct +
                (if rec.is_correct then 1 else 0)⟩)
      ∧ ((resolveTopic r qid hint = none ∨ resolveTopic r qid hint = some "") →
          u2.stats.by_topic = u.stats.by_topic) := by
  have hr1 : ensureR r uid now = r := ensureR_of_mem hu
  refine ⟨{ u with
      session := some ({ s with answers := insertA qid rec s.answers }),
      stats :=
        ⟨⟨u.stats.total.answered + 1,
          u.stats.total.correct + (if rec.is_correct then 1 else 0)⟩,
          match resolveTopic r qid hint with
          | some t =>
            if t = "" then u.stats.by_topic
            else
              insertA t
                ⟨((lookupA t u.stats.by_topic).getD ⟨0, 0⟩).answered + 1,
                  ((lookupA t u.stats.by_topic).getD ⟨0, 0⟩).correct +
                    (if rec.is_correct then 1 else 0)⟩
                u.stats.by_topic
          | none => u.stats.by_topic⟩,
      updated_at := now },
    { s with answers := insertA qid rec s.answers },
    ?_, rfl, lookupA_insertA_self _ _ _, rfl, rfl, ?_, ?_⟩
  · simp only [Repo.record_answer, hr1, hu, hs, save_users_users]
    exact lookupA_insertA_self _ _ _
  · intro t ht hne
    simp only [ht]
    rw [if_neg hne]
    exact lookupA_insertA_self _ _ _
  · intro hcase
    rcases hcase with h0 | h0
    · simp only [h0]
    · simp only [h0]
      rw [if_pos trivial]

/-- C7 witness: recording a correct answer for q1 (topic alg) on the
started series bumps total.answered by one. -/
theorem C7_record_answer_spec_witness :
    lookupA (toString (1 : Int)) repoC8a.users = some rowC8
    ∧ rowC8.session = some sessC8
    ∧ ∃ u2,
        lookupA (toString (1 : Int))
          (repoC8a.record_answer 1 "q1" ⟨"single_choice", "0", true⟩ none
            "t3").users = some u2
        ∧ u2.stats.total.answered = rowC8.stats.total.answered + 1 := by
  refine ⟨rfl, rfl, ?_⟩
  obtain ⟨u2, s2, h1, _, _, h4, _⟩ :=
    C7_record_answer_spec repoC8a 1 "q1" ⟨"single_choice", "0", true⟩ none
      "t3" rowC8 sessC8 rfl rfl
  exact ⟨u2, h1, h4⟩

/-! ## Statistics: well-formedness and monotonicity -/

/-- correct ≤ answered for one counter pair. -/
def bucketWF (b : StatsBucket) : Prop := b.correct ≤ b.answered

/-- correct ≤ answered at total and at every per-topic bucket. -/
def statsWF (st : Stats) : Prop :=
  bucketWF st.total ∧ ∀ t b, lookupA t st.by_topic = some b → bucketWF b

def rowStatsWF (u : UserRow) : Prop := statsWF u.stats

def storeStatsWF (r : Repo) : Prop := usersOK rowStatsWF r.users

/-- Pointwise non-decrease of one counter pair. -/
def bucketLE (a b : StatsBucket) : Prop :=
  a.answered ≤ b.answered ∧ a.correct ≤ b.correct

/-- Non-decrease of a stats object: the totals grow pointwise and every
existing topic bucket persists and grows pointwise. -/
def statsLE (a b : Stats) : Prop :=
  bucketLE a.total b.total ∧
  ∀ t bk, lookupA t a.by_topic = some bk →
    ∃ bk2, lookupA t b.by_topic = some bk2 ∧ bucketLE bk bk2

theorem statsLE_refl (st : Stats) : statsLE st st :=
  ⟨⟨le_refl _, le_refl _⟩, fun _ bk h => ⟨bk, h, le_refl _, le_refl _⟩⟩

theorem rowStatsWF_default (un : Option String) (now : String) :
    rowStatsWF (defaultRow un now) := by
  refine ⟨le_refl 0, ?_⟩
  intro t b h
  simp [defaultRow, lookupA] at h

theorem lookup_ensureR_of_mem {r : Repo} {uid : Int} {now : String}
    {k : String} {u : UserRow} (h : lookupA k r.users = some u) :
    lookupA k (ensureR r uid now).users = some u := by
  cases hm : lookupA (toString uid) r.users with
  | some w => rw [ensureR_of_mem hm]; exact h
  | none =>
    rw [ensureR_users_of_absent hm]
    by_cases hk : toString uid = k
    · subst hk; rw [hm] at h; cases h
    · rw [lookupA_insertA_ne _ _ hk]; exact h

theorem statsMono_insert {r : Repo} {uid : Int} {now : String}
    {u0 u2 : UserRow}
    (h0 : lookupA (toString uid) (ensureR r uid now).users = some u0)
    (hle : statsLE u0.stats u2.stats) :
    ∀ k u, lookupA k r.users = some u →
      ∃ u3, lookupA k (insertA (toString uid) u2 (ensureR r uid now).users)
          = some u3
        ∧ statsLE u.stats u3.stats := by
  intro k u h
  by_cases hk : toString uid = k
  · subst hk
    refine ⟨u2, lookupA_insertA_self _ _ _, ?_⟩
    have h2 : lookupA (toString uid) (ensureR r uid now).users = some u :=
      lookup_ensureR_of_mem h
    rw [h0] at h2
    cases h2
    exact hle
  · exact ⟨u, by rw [lookupA_insertA_ne _ _ hk]; exact lookup_ensureR_of_mem h,
      statsLE_refl _⟩

/-- Shape of the users map after an operation that rewrites one row
without touching its stats: either only ensure_user ran, or one row got
replaced by a row with the same stats. -/
def statsShape (r : Repo) (uid : Int) (now : String)
    (l : List (String × UserRow)) : Prop :=
  l = (ensureR r uid now).users
  ∨ ∃ u0 u2, lookupA (toString uid) (ensureR r uid now).users = some u0
      ∧ u2.stats = u0.stats
      ∧ l = insertA (toString uid) u2 (ensureR r uid now).users

theorem storeStatsWF_of_shape {r : Repo} {uid : Int} {now : String}
    {l : List (String × UserRow)}
    (hsh : statsShape r uid now l) (h : storeStatsWF r) :
    usersOK rowStatsWF l := by
  have h1 : usersOK rowStatsWF (ensureR r uid now).users :=
    usersOK_ensure2 (rowStatsWF_default none now) h
  rcases hsh with he | ⟨u0, u2, hu0, hst, he⟩
  · rw [he]; exact h1
  · rw [he]
    refine usersOK_insert h1 ?_
    show statsWF u2.stats
    rw [hst]
    exact h1 _ u0 hu0

theorem statsMono_of_shape {r : Repo} {uid : Int} {now : String}
    {l : List (String × UserRow)} (hsh : statsShape r uid now l) :
    ∀ k u, lookupA k r.users = some u →
      ∃ u2, lookupA k l = some u2 ∧ statsLE u.stats u2.stats := by
  rcases hsh with he | ⟨u0, u2, hu0, hst, he⟩
  · subst he
    exact fun k u h => ⟨u, lookup_ensureR_of_mem h, statsLE_refl _⟩
  · subst he
    exact statsMono_insert hu0 (by rw [hst]; exact statsLE_refl _)

theorem shape_update_prefs (r : Repo) (uid : Int) (c : PrefChanges)
    (now : String) :
    statsShape r uid now (r.update_prefs uid c now).users := by
  simp only [Repo.update_prefs]
  split
  · exact Or.inl rfl
  · rename_i u0 hu0
    exact Or.inr ⟨u0,
      { u0 with prefs := applyPrefs u0.prefs c, updated_at := now },
      hu0, rfl, by simp only [save_users_users]⟩

theorem shape_start (r : Repo) (uid : Int) (mode : String)
    (topic_id : Option String) (d : String) (cnt : Nat) (ch : List Nat)
    (now : String) :
    statsShape r uid now
      (r.start_session uid mode topic_id d cnt ch now).2.users := by
  simp only [Repo.start_session]
  split
  · exact Or.inl rfl
  · split
    · exact Or.inl rfl
    · rename_i u0 hu0
      exact Or.inr ⟨u0,
        { u0 with
          session := some ⟨mode, topic_id,
            ((ensureR r uid now).pick_series topic_id d cnt ch).map
              (fun q => q.id), 0, [], none, []⟩,
          last_topic_id := topic_id,
          updated_at := now },
        hu0, rfl, by simp only [save_users_users]⟩

theorem shape_advance (r : Repo) (uid : Int) (now : String) :
    statsShape r uid now (r.advance uid now).2.users := by
  simp only [Repo.advance]
  split
  · exact Or.inl rfl
  · rename_i u0 hu0
    split
    · exact Or.inl rfl
    · rename_i s0 hs0
      exact Or.inr ⟨u0,
        { u0 with
          session := some ({ s0 with index := s0.index + 1 }),
          updated_at := now },
        hu0, rfl, by simp only [save_users_users]⟩

theorem shape_finish (r : Repo) (uid : Int) (now : String) :
    statsShape r uid now (r.finish uid now).users := by
  simp only [Repo.finish]
  split
  · exact Or.inl rfl
  · rename_i u0 hu0
    exact Or.inr ⟨u0,
      { u0 with session := none, updated_at := now },
      hu0, rfl, by simp only [save_users_users]⟩

theorem shape_set_await (r : Repo) (uid : Int) (qid fmt now : String) :
    statsShape r uid now (r.set_await_input uid qid fmt now).users := by
  simp only [Repo.set_await_input]
  split
  · exact Or.inl rfl
  · rename_i u0 hu0
    split
    · exact Or.inl rfl
    · rename_i s0 hs0
      exact Or.inr ⟨u0,
        { u0 with
          session := some ({ s0 with await_input := some ⟨qid, fmt⟩ }),
          updated_at := now },
        hu0, rfl, by simp only [save_users_users]⟩

theorem shape_clear_await (r : Repo) (uid : Int) (now : String) :
    statsShape r uid now (r.clear_await_input uid now).users := by
  simp only [Repo.clear_await_input]
  split
  · exact Or.inl rfl
  · rename_i u0 hu0
    split
    · exact Or.inl rfl
    · rename_i s0 hs0
      exact Or.inr ⟨u0,
        { u0 with
          session := some ({ s0 with await_input := none }),
          updated_at := now },
        hu0, rfl, by simp only [save_users_users]⟩

/-- The row record_answer writes back (the exact literal built in the
some-session branch of record_answer). -/
def recRow (r1 : Repo) (qid : String) (rec : AnswerRec) (hint : Option String)
    (now : String) (u : UserRow) (s : Session) : UserRow :=
  { u with
    session := some ({ s with answers := insertA qid rec s.answers }),
    stats :=
      ⟨⟨u.stats.total.answered + 1,
        u.stats.total.correct + (if rec.is_correct then 1 else 0)⟩,
        match resolveTopic r1 qid hint with
        | some t =>
          if t = "" then u.stats.by_topic
          else
            insertA t
              ⟨((lookupA t u.stats.by_topic).getD ⟨0, 0⟩).answered + 1,
                ((lookupA t u.stats.by_topic).getD ⟨0, 0⟩).correct +
                  (if rec.is_correct then 1 else 0)⟩
              u.stats.by_topic
        | none => u.stats.by_topic⟩,
    updated_at := now }

theorem statsWF_recRow (r1 : Repo) (qid : String) (rec : AnswerRec)
    (hint : Option String) (now : String) (u : UserRow) (s : Session)
    (h : statsWF u.stats) :
    statsWF (recRow r1 qid rec hint now u s).stats := by
  constructor
  · show u.stats.total.correct + (if rec.is_correct then 1 else 0)
      ≤ u.stats.total.answered + 1
    have h1 := h.1
    have h2 : (if rec.is_correct then 1 else 0) ≤ 1 := by split <;> omega
    simp only [bucketWF] at h1
    omega
  · intro t bk
    show lookupA t
        (match resolveTopic r1 qid hint with
        | some t2 =>
          if t2 = "" then u.stats.by_topic
          else
            insertA t2
              ⟨((lookupA t2 u.stats.by_topic).getD ⟨0, 0⟩).answered + 1,
                ((lookupA t2 u.stats.by_topic).getD ⟨0, 0⟩).correct +
                  (if rec.is_correct then 1 else 0)⟩
              u.stats.by_topic
        | none => u.stats.by_topic) = some bk → bucketWF bk
    cases hres : resolveTopic r1 qid hint with
    | none => exact fun hbk => h.2 t bk hbk
    | some t2 =>
      intro hbk
      simp only [] at hbk
      by_cases he : t2 = ""
      · rw [if_pos he] at hbk
        exact h.2 t bk hbk
      · rw [if_neg he] at hbk
        by_cases ht : t2 = t
        · subst ht
          rw [lookupA_insertA_self] at hbk
          cases hbk
          have hb : bucketWF ((lookupA t2 u.stats.by_topic).getD ⟨0, 0⟩) := by
            cases hl : lookupA t2 u.stats.by_topic with
            | none => exact le_refl 0
            | some b0 =>
              have := h.2 t2 b0 hl
              simpa [hl] using this
          show ((lookupA t2 u.stats.by_topic).getD ⟨0, 0⟩).correct +
              (if rec.is_correct then 1 else 0)
            ≤ ((lookupA t2 u.stats.by_topic).getD ⟨0, 0⟩).answered + 1
          have h2 : (if rec.is_correct then 1 else 0) ≤ 1 := by split <;> omega
          simp only [bucketWF] at hb
          omega
        · rw [lookupA_insertA_ne _ _ ht] at hbk
          exact h.2 t bk hbk

theorem statsLE_recRow (r1 : Repo) (qid : String) (rec : AnswerRec)
    (hint : Option String) (now : String) (u : UserRow) (s : Session) :
    statsLE u.stats (recRow r1 qid rec hint now u s).stats := by
  constructor
  · exact ⟨Nat.le_succ _, Nat.le_add_right _ _⟩
  · intro t bk hbk
    show ∃ bk2, lookupA t
        (match resolveTopic r1 qid hint with
        | some t2 =>
          if t2 = "" then u.stats.by_topic
          else
            insertA t2
              ⟨((lookupA t2 u.stats.by_topic).getD ⟨0, 0⟩).answered + 1,
                ((lookupA t2 u.stats.by_topic).getD ⟨0, 0⟩).correct +
                  (if rec.is_correct then 1 else 0)⟩
              u.stats.by_topic
        | none => u.stats.by_topic) = some bk2 ∧ bucketLE bk bk2
    cases hres : resolveTopic r1 qid hint with
    | none => exact ⟨bk, hbk, le_refl _, le_refl _⟩
    | some t2 =>
      simp only []
      by_cases he : t2 = ""
      · rw [if_pos he]
        exact ⟨bk, hbk, le_refl _, le_refl _⟩
      · rw [if_neg he]
        by_cases ht : t2 = t
        · subst ht
          refine ⟨_, lookupA_insertA_self _ _ _, ?_⟩
          constructor
          · show bk.answered ≤
              ((lookupA t2 u.stats.by_topic).getD ⟨0, 0⟩).answered + 1
            rw [hbk]
            exact Nat.le_succ _
          · show bk.correct ≤
              ((lookupA t2 u.stats.by_topic).getD ⟨0, 0⟩).correct +
                (if rec.is_correct then 1 else 0)
            rw [hbk]
            exact Nat.le_add_right _ _
        · exact ⟨bk, by rw [lookupA_insertA_ne _ _ ht]; exact hbk,
            le_refl _, le_refl _⟩

theorem usersOK_single {P : UserRow → Prop} {key : String} {u : UserRow}
    (h : P u) : usersOK P [(key, u)] := by
  intro k v hv
  simp only [lookupA] at hv
  by_cases hk : key = k
  · rw [if_pos hk] at hv
    cases hv
    exact h
  · rw [if_neg hk] at hv
    simp [lookupA] at hv

theorem lookup_ensure2_of_mem {r : Repo} {uid : Int} {un : Option String}
    {now : String} {k : String} {u : UserRow}
    (h : lookupA k r.users = some u) :
    lookupA k (r.ensure_user uid un now).2.users = some u := by
  cases hm : lookupA (toString uid) r.users with
  | some w => rw [ensure2_of_mem hm]; exact h
  | none =>
    rw [ensure2_users_of_absent hm]
    by_cases hk : toString uid = k
    · subst hk; rw [hm] at h; cases h
    · rw [lookupA_insertA_ne _ _ hk]; exact h

/-- C6: correct ≤ answered holds for totals and for every topic bucket in
the initial store and is preserved by every public operation, and across
any operation every user's counters (total and each existing topic bucket)
never decrease. -/
theorem C6_stats_invariant (r : Repo) (op : Op) (qs2 : List Question)
    (now0 : String) :
    storeStatsWF (initRepo qs2 now0)
    ∧ (storeStatsWF r → storeStatsWF (applyOp r op))
    ∧ (∀ k u, lookupA k r.users = some u →
        ∃ u2, lookupA k (applyOp r op).users = some u2
          ∧ statsLE u.stats u2.stats) := by
  refine ⟨?_, ?_⟩
  · intro k u hk
    simp [initRepo, lookupA] at hk
  · cases op with
    | opEnsure uid un now =>
      exact ⟨fun h => usersOK_ensure2 (rowStatsWF_default un now) h,
        fun k u h => ⟨u, lookup_ensure2_of_mem h, statsLE_refl _⟩⟩
    | opUpdatePrefs uid c now =>
      have hsh := shape_update_prefs r uid c now
      exact ⟨fun h => storeStatsWF_of_shape hsh h, statsMono_of_shape hsh⟩
    | opStart uid mode t d cnt ch now =>
      have hsh := shape_start r uid mode t d cnt ch now
      exact ⟨fun h => storeStatsWF_of_shape hsh h, statsMono_of_shape hsh⟩
    | opGetCurrent uid now =>
      have hsh : statsShape r uid now
          ((r.get_current_question uid now).2.users) := by
        rw [get_current_state]
        exact Or.inl rfl
      exact ⟨fun h => storeStatsWF_of_shape hsh h, statsMono_of_shape hsh⟩
    | opAdvance uid now =>
      have hsh := shape_advance r uid now
      exact ⟨fun h => storeStatsWF_of_shape hsh h, statsMono_of_shape hsh⟩
    | opFinish uid now =>
      have hsh := shape_finish r uid now
      exact ⟨fun h => storeStatsWF_of_shape hsh h, statsMono_of_shape hsh⟩
    | opSetAwait uid qid fmt now =>
      have hsh := shape_set_await r uid qid fmt now
      exact ⟨fun h => storeStatsWF_of_shape hsh h, statsMono_of_shape hsh⟩
    | opClearAwait uid now =>
      have hsh := shape_clear_await r uid now
      exact ⟨fun h => storeStatsWF_of_shape hsh h, statsMono_of_shape hsh⟩
    | opRecord uid qid rec hint now =>
      have hsh : (r.record_answer uid qid rec hint now).users
            = (ensureR r uid now).users
          ∨ ∃ u0 s0,
            lookupA (toString uid) (ensureR r uid now).users = some u0
            ∧ (r.record_answer uid qid rec hint now).users
                = insertA (toString uid)
                    (recRow (ensureR r uid now) qid rec hint now u0 s0)
                    (ensureR r uid now).users := by
        simp only [Repo.record_answer]
        split
        · exact Or.inl rfl
        · rename_i u0 hu0
          split
          · exact Or.inl rfl
          · rename_i s0 hs0
            refine Or.inr ⟨u0, s0, hu0, ?_⟩
            simp only [save_users_users]
            rfl
      constructor
      · intro h
        have h1 : usersOK rowStatsWF (ensureR r uid now).users :=
          usersOK_ensure2 (rowStatsWF_default none now) h
        show usersOK rowStatsWF (r.record_answer uid qid rec hint now).users
        rcases hsh with he | ⟨u0, s0, hu0, he⟩
        · rw [he]; exact h1
        · rw [he]
          exact usersOK_insert h1
            (statsWF_recRow _ _ _ _ _ _ _ (h1 _ u0 hu0))
      · show ∀ k u, lookupA k r.users = some u →
          ∃ u2, lookupA k (r.record_answer uid qid rec hint now).users
              = some u2
            ∧ statsLE u.stats u2.stats
        rcases hsh with he | ⟨u0, s0, hu0, he⟩
        · rw [he]
          exact fun k u h => ⟨u, lookup_ensureR_of_mem h, statsLE_refl _⟩
        · rw [he]
          exact statsMono_insert hu0 (statsLE_recRow _ _ _ _ _ _ _)

/-- C6 witness: the one-user store satisfies the stats invariant; it
persists across ensure_user and user 1's counters do not decrease. -/
theorem C6_stats_invariant_witness :
    storeStatsWF repoW5
    ∧ storeStatsWF (applyOp repoW5 (.opEnsure 1 none "t1"))
    ∧ ∃ u2, lookupA "1" (applyOp repoW5 (.opEnsure 1 none "t1")).users
          = some u2
        ∧ statsLE rowW.stats u2.stats := by
  have hW : storeStatsWF repoW5 :=
    usersOK_single (rowStatsWF_default none "t0")
  have T := C6_stats_invariant repoW5 (.opEnsure 1 none "t1") [] "t0"
  exact ⟨hW, T.2.1 hW, T.2.2 "1" rowW rfl⟩

/-! ## ensure_user runs first in every operation -/

/-- The user id an operation targets. -/
def opUid : Op → Int
  | .opEnsure uid _ _ => uid
  | .opUpdatePrefs uid _ _ => uid
  | .opStart uid _ _ _ _ _ _ => uid
  | .opGetCurrent uid _ => uid
  | .opRecord uid _ _ _ _ => uid
  | .opAdvance uid _ => uid
  | .opFinish uid _ => uid
  | .opSetAwait uid _ _ _ => uid
  | .opClearAwait uid _ => uid

/-- The _now_iso timestamp an operation observed. -/
def opNow : Op → String
  | .opEnsure _ _ now => now
  | .opUpdatePrefs _ _ now => now
  | .opStart _ _ _ _ _ _ now => now
  | .opGetCurrent _ now => now
  | .opRecord _ _ _ _ now => now
  | .opAdvance _ now => now
  | .opFinish _ now => now
  | .opSetAwait _ _ _ now => now
  | .opClearAwait _ now => now

/-- The username an operation may pass to ensure_user. -/
def opUsername : Op → Option String
  | .opEnsure _ un _ => un
  | _ => none

/-- The operations that, for a first-contact user, do nothing beyond the
ensure_user creation: ensure_user itself, the read get_current_question,
and the four calls whose no-session path is taken. -/
def passiveOp : Op → Prop
  | .opEnsure _ _ _ => True
  | .opGetCurrent _ _ => True
  | .opRecord _ _ _ _ _ => True
  | .opAdvance _ _ => True
  | .opSetAwait _ _ _ _ => True
  | .opClearAwait _ _ => True
  | _ => False

theorem ensure2_of_absent {r : Repo} {uid : Int} {un : Option String}
    {now : String} (h : lookupA (toString uid) r.users = none) :
    (r.ensure_user uid un now).2 =
      Repo.save_users
        { r with users := insertA (toString uid) (defaultRow un now) r.users }
        now := by
  simp [Repo.ensure_user, h]

theorem ensureR_of_absent {r : Repo} {uid : Int} {now : String}
    (h : lookupA (toString uid) r.users = none) :
    ensureR r uid now =
      Repo.save_users
        { r with users := insertA (toString uid) (defaultRow none now) r.users }
        now :=
  ensure2_of_absent h

theorem lookup_some_of_shape {r : Repo} {uid : Int} {now : String}
    {l : List (String × UserRow)} (hsh : statsShape r uid now l) :
    ∃ u, lookupA (toString uid) l = some u := by
  rcases hsh with he | ⟨u0, u2, hu0, _, he⟩
  · subst he; exact ⟨_, ensureR_lookup r uid now⟩
  · subst he; exact ⟨u2, lookupA_insertA_self _ _ _⟩

theorem lookup_fresh_default {r : Repo} {uid : Int} {now : String}
    (habs : lookupA (toString uid) r.users = none) :
    lookupA (toString uid) (ensureR r uid now).users
      = some (defaultRow none now) := by
  rw [ensureR_users_of_absent habs]
  exact lookupA_insertA_self _ _ _

theorem record_fresh {r : Repo} {uid : Int} {qid : String} {rec : AnswerRec}
    {hint : Option String} {now : String}
    (habs : lookupA (toString uid) r.users = none) :
    r.record_answer uid qid rec hint now = ensureR r uid now := by
  simp only [Repo.record_answer, lookup_fresh_default habs]
  rfl

theorem advance_fresh {r : Repo} {uid : Int} {now : String}
    (habs : lookupA (toString uid) r.users = none) :
    (r.advance uid now).2 = ensureR r uid now := by
  simp only [Repo.advance, lookup_fresh_default habs]
  rfl

theorem set_await_fresh {r : Repo} {uid : Int} {qid fmt now : String}
    (habs : lookupA (toString uid) r.users = none) :
    r.set_await_input uid qid fmt now = ensureR r uid now := by
  simp only [Repo.set_await_input, lookup_fresh_default habs]
  rfl

theorem clear_await_fresh {r : Repo} {uid : Int} {now : String}
    (habs : lookupA (toString uid) r.users = none) :
    r.clear_await_input uid now = ensureR r uid now := by
  simp only [Repo.clear_await_input, lookup_fresh_default habs]
  rfl

theorem fresh_ensure_goal {r : Repo} {uid : Int} {un : Option String}
    {now : String} (habs : lookupA (toString uid) r.users = none) :
    lookupA (toString uid) (r.ensure_user uid un now).2.users
        = some (defaultRow un now)
    ∧ ∃ d, (r.ensure_user uid un now).2.disk = some d
        ∧ lookupA (toString uid) d.users = some (defaultRow un now) := by
  rw [ensure2_of_absent habs]
  exact ⟨lookupA_insertA_self _ _ _, ⟨_, rfl, lookupA_insertA_self _ _ _⟩⟩

/-- C10: after any operation for user u, the users map binds str(u) to a
row; on first contact the operations that are otherwise reads or no-ops
(ensure_user, get_current_question, and the sessionless paths of
record_answer, advance, set_await_input, clear_await_input) leave exactly
the freshly created default row, and the creation is already persisted to
the users file. -/
theorem C10_ensure_on_every_op (r : Repo) (op : Op) :
    (∃ u, lookupA (toString (opUid op)) (applyOp r op).users = some u)
    ∧ (lookupA (toString (opUid op)) r.users = none → passiveOp op →
        lookupA (toString (opUid op)) (applyOp r op).users
          = some (defaultRow (opUsername op) (opNow op))
        ∧ ∃ d, (applyOp r op).disk = some d
            ∧ lookupA (toString (opUid op)) d.users
                = some (defaultRow (opUsername op) (opNow op))) := by
  constructor
  · cases op with
    | opEnsure uid un now =>
      cases hm : lookupA (toString uid) r.users with
      | some u => rw [show applyOp r (.opEnsure uid un now)
          = (r.ensure_user uid un now).2 from rfl, ensure2_of_mem hm]
                  exact ⟨u, hm⟩
      | none => exact ⟨_, (fresh_ensure_goal hm).1⟩
    | opUpdatePrefs uid c now =>
      exact lookup_some_of_shape (shape_update_prefs r uid c now)
    | opStart uid mode t d cnt ch now =>
      exact lookup_some_of_shape (shape_start r uid mode t d cnt ch now)
    | opGetCurrent uid now =>
      rw [show applyOp r (.opGetCurrent uid now)
        = (r.get_current_question uid now).2 from rfl, get_current_state]
      exact ⟨_, ensureR_lookup r uid now⟩
    | opRecord uid qid rec hint now =>
      show ∃ u, lookupA (toString uid)
        (r.record_answer uid qid rec hint now).users = some u
      simp only [Repo.record_answer]
      split
      · exact ⟨_, ensureR_lookup r uid now⟩
      · split
        · exact ⟨_, ensureR_lookup r uid now⟩
        · simp only [save_users_users]
          exact ⟨_, lookupA_insertA_self _ _ _⟩
    | opAdvance uid now =>
      exact lookup_some_of_shape (shape_advance r uid now)
    | opFinish uid now =>
      exact lookup_some_of_shape (shape_finish r uid now)
    | opSetAwait uid qid fmt now =>
      exact lookup_some_of_shape (shape_set_await r uid qid fmt now)
    | opClearAwait uid now =>
      exact lookup_some_of_shape (shape_clear_await r uid now)
  · intro habs hp
    cases op with
    | opEnsure uid un now => exact fresh_ensure_goal habs
    | opUpdatePrefs uid c now => exact hp.elim
    | opStart uid mode t d cnt ch now => exact hp.elim
    | opFinish uid now => exact hp.elim
    | opGetCurrent uid now =>
      rw [show applyOp r (.opGetCurrent uid now)
        = (r.get_current_question uid now).2 from rfl, get_current_state]
      exact fresh_ensure_goal habs
    | opRecord uid qid rec hint now =>
      simp only [applyOp, opUid, opNow, opUsername] at habs ⊢
      rw [record_fresh habs]
      exact fresh_ensure_goal habs
    | opAdvance uid now =>
      simp only [applyOp, opUid, opNow, opUsername] at habs ⊢
      rw [advance_fresh habs]
      exact fresh_ensure_goal habs
    | opSetAwait uid qid fmt now =>
      simp only [applyOp, opUid, opNow, opUsername] at habs ⊢
      rw [set_await_fresh habs]
      exact fresh_ensure_goal habs
    | opClearAwait uid now =>
      simp only [applyOp, opUid, opNow, opUsername] at habs ⊢
      rw [clear_await_fresh habs]
      exact fresh_ensure_goal habs

/-- C10 witness: a read on a fresh store creates and persists the default
row for user 1. -/
theorem C10_ensure_on_every_op_witness :
    lookupA (toString (opUid (.opGetCurrent 1 "t1")))
        (initRepo [] "t0").users = none
    ∧ passiveOp (.opGetCurrent 1 "t1")
    ∧ (lookupA (toString (opUid (.opGetCurrent 1 "t1")))
          (applyOp (initRepo [] "t0") (.opGetCurrent 1 "t1")).users
        = some (defaultRow none "t1")
      ∧ ∃ d, (applyOp (initRepo [] "t0") (.opGetCurrent 1 "t1")).disk = some d
          ∧ lookupA (toString (opUid (.opGetCurrent 1 "t1"))) d.users
              = some (defaultRow none "t1")) :=
  ⟨rfl, True.intro,
    (C10_ensure_on_every_op (initRepo [] "t0") (.opGetCurrent 1 "t1")).2
      rfl True.intro⟩
